import Mathlib

/-!
Verification of the candidate-filtering engine of the wordle-solver
repository.

The engine lives in `src/script.js` (`applyGuessToCandidates`,
`countLetters`, `validateInputs`, the submit-button click handler); a
near-identical variant of `applyGuessToCandidates` that additionally
normalises its feedback argument to upper case appears in
`src/unnamed/part_001`.

Modelling conventions:
* JS strings are modelled as `List Char` (`Word` below); the source splits
  its 5-character inputs into character arrays and indexes them.
* JS objects used as letter-keyed or position-keyed maps are modelled as
  functions returning `Option` values (`none` = no entry, as tested by the
  source with `?? / || 0` defaults).
* Out-of-range indexing is rendered with `List.getD` and the placeholder
  character `'?'`; the engine's inputs are validated to be exactly five
  characters long, so the placeholder is never consulted on valid input.
-/

namespace WordleSolver

/-- A word (guess, candidate or feedback string) of the solver: a JS string
modelled as its list of characters. -/
abbrev Word := List Char

/-- `countLetters` (src/script.js:397-401): builds the letter → occurrence
count map of a string.  Looking that map up with the `|| 0` default used by
the filter yields exactly `List.count`. -/
def countLetters (str : Word) (ch : Char) : Nat :=
  str.count ch

/-- The `ygCounts` tally of `applyGuessToCandidates` (src/script.js:335-346):
the number of positions of this guess whose feedback symbol is `G` or `Y`
and whose guess letter is `ch`.  The `for (let i = 0; i < 5; i++)` loop
reads the pairs `(gArr[i], fArr[i])`, i.e. the elements of
`gArr.zip fArr` for the validated 5-character inputs. -/
def ygCounts (gArr fArr : Word) (ch : Char) : Nat :=
  (gArr.zip fArr).countP fun p => (p.2 == 'G' || p.2 == 'Y') && p.1 == ch

/-- `requiredPositions` (greens, position → letter, src/script.js:339-341):
position `i` has the entry `gArr[i]` exactly when `fArr[i] === 'G'`. -/
def requiredPositions (gArr fArr : Word) (i : Nat) : Option Char :=
  if fArr.getD i '?' == 'G' then some (gArr.getD i '?') else none

/-- `forbiddenPositions` (yellows, position → Set(letter),
src/script.js:342-344): the loop adds at most one letter (`gArr[i]`) to the
set at position `i`, so every set is empty or a singleton, modelled as an
`Option`. -/
def forbiddenPositions (gArr fArr : Word) (i : Nat) : Option Char :=
  if fArr.getD i '?' == 'Y' then some (gArr.getD i '?') else none

/-- Whether letter `ch` carries at least one `X` (Absent) mark in this
guess. -/
def hasXMark (gArr fArr : Word) (ch : Char) : Bool :=
  (gArr.zip fArr).any fun p => p.2 == 'X' && p.1 == ch

/-- One iteration of the `X`-cap loop of src/script.js:349-355: for an `X`
position with letter `ch = gArr[i]` it performs
`maxLetterCounts[ch] = Math.max(maxLetterCounts[ch] ?? allowed, allowed)`
with `allowed = ygCounts[ch] || 0`; other positions leave the map alone. -/
def maxStep (yg : Char → Nat) (acc : Char → Option Nat) (p : Char × Char) :
    Char → Option Nat := fun ch =>
  if p.2 == 'X' && p.1 == ch then
    some (Nat.max ((acc ch).getD (yg p.1)) (yg p.1))
  else acc ch

/-- `maxLetterCounts` after the full `X` loop (src/script.js:349-355): a
left fold of `maxStep` over the `(gArr[i], fArr[i])` pairs, starting from
the empty map. -/
def maxLetterCounts (gArr fArr : Word) (ch : Char) : Option Nat :=
  ((gArr.zip fArr).foldl (maxStep (ygCounts gArr fArr)) fun _ => none) ch

/-- `minLetterCounts` (src/script.js:357-360): `Object.entries(ygCounts)`
lists each letter having at least one `G`/`Y` mark exactly once, with its
tally `cnt`; the map starts empty, so
`Math.max(minLetterCounts[ch] ?? cnt, cnt)` is just `cnt`. -/
def minLetterCounts (gArr fArr : Word) (ch : Char) : Option Nat :=
  if ygCounts gArr fArr ch = 0 then none else some (ygCounts gArr fArr ch)

/-- The per-candidate predicate passed to `words.filter`
(src/script.js:362-394).  Checks 3a/3b of the source iterate over the
entries of `minLetterCounts` / `maxLetterCounts`; every key of those maps is
`gArr[i]` for some `i < 5` and re-checking a key is harmless (the checks are
conjunctive and the value per key is fixed), so the entry loops are rendered
as loops over the five guess positions. -/
def candidatePasses (gArr fArr candidate : Word) : Bool :=
  -- 1) Greens at exact positions
  ((List.range 5).all fun i =>
    match requiredPositions gArr fArr i with
    | some letter => candidate.getD i '?' == letter
    | none => true) &&
  -- 2) Yellows: present but not at that position
  ((List.range 5).all fun i =>
    if fArr.getD i '?' == 'Y' then
      !(candidate.getD i '?' == gArr.getD i '?') &&
        candidate.contains (gArr.getD i '?')
    else true) &&
  -- 3a) Per-letter minimum counts
  ((List.range 5).all fun i =>
    match minLetterCounts gArr fArr (gArr.getD i '?') with
    | some minCnt => decide (minCnt ≤ countLetters candidate (gArr.getD i '?'))
    | none => true) &&
  -- 3b) Per-letter maximum counts
  ((List.range 5).all fun i =>
    match maxLetterCounts gArr fArr (gArr.getD i '?') with
    | some maxCnt => decide (countLetters candidate (gArr.getD i '?') ≤ maxCnt)
    | none => true) &&
  -- 4) Additional yellow positional forbiddance
  ((List.range 5).all fun i =>
    match forbiddenPositions gArr fArr i with
    | some letter => !(candidate.getD i '?' == letter)
    | none => true)

/-- `applyGuessToCandidates` (src/script.js:326-395): derives the constraint
maps from one guess/feedback pair and filters the candidate words with
them. -/
def applyGuessToCandidates (guess feedback : Word) (words : List Word) :
    List Word :=
  words.filter (candidatePasses guess feedback)

/-- `validateInputs` (src/script.js:307-311).  The regular-expression test
`/^[a-z]{5}$/.test(guess)` holds exactly when the guess is five characters,
each in `a`-`z`; `/^[GYXgyx]{5}$/.test(feedback)` holds exactly when the
feedback is five characters over `G/Y/X/g/y/x`. -/
def validateInputs (guess feedback : Word) : Option String :=
  if !(guess.length == 5 && guess.all fun c => 'a' ≤ c && c ≤ 'z') then
    some "Guess must be 5 letters (A–Z)."
  else if !(feedback.length == 5 && feedback.all fun c =>
      c == 'G' || c == 'Y' || c == 'X' || c == 'g' || c == 'y' || c == 'x') then
    some "Feedback must be 5 characters using G/Y/X."
  else
    none

/-- Configuration constant of src/script.js:20. -/
def REQUIRE_GUESS_IN_DICTIONARY : Bool := true

/-- Configuration constant of src/script.js:23. -/
def PREVENT_DUPLICATE_GUESSES : Bool := true

/-- The mutable application state read and written by the click handlers of
src/script.js (`dictionary`, `candidates`, `previousGuesses`).  The
`dictionarySet` / `previousGuessesSet` companions only provide fast
membership tests over the same contents. -/
structure AppState where
  dictionary : List Word
  candidates : List Word
  previousGuesses : List Word
deriving DecidableEq

/-- The submit-button click handler (src/script.js:498-556), modelled from
the point where the two input fields have been read and trimmed.  It lower
cases the guess and upper cases the feedback, then runs the guard chain:
format validation, dictionary membership, duplicate-guess prevention and the
empty-dictionary guard; only when all guards pass does it derive and apply
constraints (`applyGuessToCandidates`) and record the guess.  The second
component is the rejection message (`none` = the submission was applied);
message texts of the non-validation guards are abbreviated UI text. -/
def submitClick (st : AppState) (guessRaw feedbackRaw : Word) :
    AppState × Option String :=
  let guess := guessRaw.map Char.toLower
  let feedback := feedbackRaw.map Char.toUpper
  match validateInputs guess feedback with
  | some err => (st, some ("❌ " ++ err))
  | none =>
    if REQUIRE_GUESS_IN_DICTIONARY && !(st.dictionary.contains guess) then
      (st, some "❌ not in the word list")
    else if PREVENT_DUPLICATE_GUESSES && st.previousGuesses.contains guess then
      (st, some "❌ already guessed")
    else if st.candidates.isEmpty && st.dictionary.isEmpty then
      (st, some "❌ No candidates loaded.")
    else
      ({ st with
          candidates := applyGuessToCandidates guess feedback st.candidates,
          previousGuesses := st.previousGuesses ++ [guess] },
        none)

/-- Models one call of `applyGuessToCandidates` together with the post-call
value of the caller's `words` array: `Array.prototype.filter` allocates a
fresh array and never writes to its receiver, and the function body reads
but never assigns `words`, so after the call the input array still holds
exactly the elements it held before, in the same order. -/
def applyGuessToCandidatesCall (guess feedback : Word) (words : List Word) :
    List Word × List Word :=
  (words.filter (candidatePasses guess feedback), words)

end WordleSolver

namespace Part001

/-- `applyGuessToCandidates` as duplicated in src/unnamed/part_001:304-373:
its body is character-for-character the body of the src/script.js version
except for line 306, `const fArr = feedback.toUpperCase().split('')`, which
normalises the feedback to upper case before any constraint is derived. -/
def applyGuessToCandidates (guess feedback : WordleSolver.Word)
    (words : List WordleSolver.Word) : List WordleSolver.Word :=
  WordleSolver.applyGuessToCandidates guess (feedback.map Char.toUpper) words

end Part001

namespace WordleSolver

/-- Modelled from the spec: helper for the canonical scoring pass — consume
one unit of availability of letter `ch`. -/
def decrAt (avail : Char → Nat) (ch : Char) : Char → Nat :=
  fun c => if c = ch then avail ch - 1 else avail c

/-- Modelled from the spec: the position pass of canonical Wordle scoring
(§8 "Self-consistency"; the repository itself contains no scoring function —
it asks the user for the feedback).  Walking the `(guess, target)` character
pairs left to right: a matching pair is `Correct`; otherwise the guess
letter is `Present` while unconsumed availability of that letter remains
(each `Present` consumes one unit), else `Absent`. -/
def scoreAux : List (Char × Char) → (Char → Nat) → List Char
  | [], _ => []
  | (gc, tc) :: rest, avail =>
    if gc = tc then 'G' :: scoreAux rest avail
    else if 0 < avail gc then 'Y' :: scoreAux rest (decrAt avail gc)
    else 'X' :: scoreAux rest avail

/-- Number of Correct (green) positions among `pairs` whose letter is
`ch`. -/
def greensFor (pairs : List (Char × Char)) (ch : Char) : Nat :=
  pairs.countP fun p => p.1 == p.2 && p.1 == ch

/-- Modelled from the spec: the initial availability of letter `ch` for
`Present` marks — its occurrences in the target not already consumed by
`Correct` matches. -/
def initAvail (guess target : Word) (ch : Char) : Nat :=
  target.count ch - greensFor (guess.zip target) ch

/-- Modelled from the spec: canonical Wordle scoring of a guess against a
hidden target (§8 "Self-consistency": `Correct` if same letter/position,
else `Present` if the letter occurs elsewhere in the target with
availability not already consumed, else `Absent`).  The repository contains
no scoring function, so this definition follows the specification's
words. -/
def score (guess target : Word) : Word :=
  scoreAux (guess.zip target) (initAvail guess target)

/-- The availability map left after `scoreAux` has processed `pairs`,
mirroring its branch structure. -/
def availAfter : List (Char × Char) → (Char → Nat) → Char → Nat
  | [], avail => avail
  | (gc, tc) :: rest, avail =>
    if gc = tc then availAfter rest avail
    else if 0 < avail gc then availAfter rest (decrAt avail gc)
    else availAfter rest avail

end WordleSolver

namespace WordleSolver

/-! ## Helper lemmas -/

/-- Effect of the full `X`-cap fold on one letter: if some pair of `gf`
carries an `X` mark for `ch`, the result is `Math.max` of the seed entry
(defaulted to `yg ch`) and `yg ch`; otherwise the accumulator is
untouched. -/
lemma maxFold_apply (yg : Char → Nat) (gf : List (Char × Char)) :
    ∀ (acc : Char → Option Nat) (ch : Char),
      (gf.foldl (maxStep yg) acc) ch =
        if gf.any (fun p => p.2 == 'X' && p.1 == ch) then
          some (Nat.max ((acc ch).getD (yg ch)) (yg ch))
        else acc ch := by
  induction gf with
  | nil => intro acc ch; simp
  | cons p rest ih =>
    intro acc ch
    rw [List.foldl_cons, ih]
    by_cases hx : (p.2 == 'X' && p.1 == ch) = true
    · have hch : p.1 = ch := eq_of_beq ((Bool.and_eq_true _ _).mp hx).2
      have hacc : maxStep yg acc p ch
          = some (Nat.max ((acc ch).getD (yg ch)) (yg ch)) := by
        simp only [maxStep]
        rw [if_pos hx, hch]
      rw [hacc]
      simp only [List.any_cons, hx, Bool.true_or, if_true]
      by_cases hr : rest.any (fun p => p.2 == 'X' && p.1 == ch) = true
      · simp only [hr, if_true, Option.getD_some]
        exact congrArg some (Nat.max_eq_left (Nat.le_max_right _ _))
      · simp [hr]
    · have hx' : (p.2 == 'X' && p.1 == ch) = false := Bool.eq_false_iff.mpr hx
      have hacc : maxStep yg acc p ch = acc ch := by
        simp only [maxStep]
        rw [if_neg hx]
      rw [hacc, List.any_cons, hx', Bool.false_or]

/-- The `Math.max` accumulation of the `X` loop collapses: a letter with at
least one `X` mark is capped at exactly its `G`+`Y` tally, a letter with no
`X` mark gets no cap entry. -/
lemma maxLetterCounts_eq (g f : Word) (ch : Char) :
    maxLetterCounts g f ch =
      if hasXMark g f ch = true then some (ygCounts g f ch) else none := by
  rw [maxLetterCounts, maxFold_apply, hasXMark]
  split <;> simp_all

/-- For the all-Absent guess `"zzzzz"` / `"XXXXX"`, the filter predicate
accepts exactly the candidates with no `'z'`. -/
lemma passes_zzzzz (w : Word) :
    candidatePasses ['z','z','z','z','z'] ['X','X','X','X','X'] w
      = !(w.contains 'z') := by
  have hmax : maxLetterCounts ['z','z','z','z','z'] ['X','X','X','X','X'] 'z'
      = some 0 := by decide
  simp only [candidatePasses, show List.range 5 = [0,1,2,3,4] from rfl,
    List.all_cons, List.all_nil]
  simp [requiredPositions, forbiddenPositions, minLetterCounts, ygCounts,
    countLetters, hmax, List.count_eq_zero]

/-- Any candidate with three `'s'` letters fails the `"sassy"`/`"YGXXG"`
filter predicate (the cap on `'s'` is 1). -/
lemma passes_sassy_reject (w : Word) (h : w.count 's' = 3) :
    candidatePasses ['s','a','s','s','y'] ['Y','G','X','X','G'] w = false := by
  have hmax : maxLetterCounts ['s','a','s','s','y'] ['Y','G','X','X','G'] 's'
      = some 1 := by decide
  simp only [candidatePasses, show List.range 5 = [0,1,2,3,4] from rfl,
    List.all_cons, List.all_nil]
  simp [hmax, countLetters, h]

/-- A 5-letter candidate with exactly one `'s'` not at position 0, `'a'` at
position 1 and `'y'` at position 4 passes the `"sassy"`/`"YGXXG"` filter
predicate. -/
lemma passes_sassy_retain (w : Word) (h5 : w.length = 5) (hs : w.count 's' = 1)
    (h0 : w.getD 0 '?' ≠ 's') (h1 : w.getD 1 '?' = 'a')
    (h4 : w.getD 4 '?' = 'y') :
    candidatePasses ['s','a','s','s','y'] ['Y','G','X','X','G'] w = true := by
  have hmax : maxLetterCounts ['s','a','s','s','y'] ['Y','G','X','X','G'] 's'
      = some 1 := by decide
  have hmaxa : maxLetterCounts ['s','a','s','s','y'] ['Y','G','X','X','G'] 'a'
      = none := by decide
  have hmaxy : maxLetterCounts ['s','a','s','s','y'] ['Y','G','X','X','G'] 'y'
      = none := by decide
  have hmem : 's' ∈ w := List.count_pos_iff.mp (by omega)
  have hmema : 'a' ∈ w := by
    have h15 : (1 : Nat) < w.length := by omega
    have := List.getElem_mem h15
    rwa [← List.getD_eq_getElem w '?' h15, h1] at this
  have hmemy : 'y' ∈ w := by
    have h45 : (4 : Nat) < w.length := by omega
    have := List.getElem_mem h45
    rwa [← List.getD_eq_getElem w '?' h45, h4] at this
  simp only [List.getD_eq_getElem?_getD] at h0 h1 h4
  simp only [candidatePasses, show List.range 5 = [0,1,2,3,4] from rfl,
    List.all_cons, List.all_nil]
  simp [hmax, hmaxa, hmaxy, countLetters, hs, h0, h1, h4, hmem,
    List.count_pos_iff.mpr hmema, List.count_pos_iff.mpr hmemy,
    requiredPositions, forbiddenPositions, minLetterCounts, ygCounts]
  exact ⟨hmema, hmemy⟩

end WordleSolver

namespace WordleSolver

/-! ## Claim theorems -/

/-- C3: for every guess/feedback pair and every letter `ch` carrying at
least one Absent (`X`) mark in that guess, `maxLetterCounts ch` equals the
number of Correct+Present (`G`+`Y`) marks for `ch` within the same guess
(0 if it has none); a letter with no `X` mark gets no cap entry at all.
Thus an Absent mark on a repeated letter caps the letter's total allowed
count instead of forbidding the letter. -/
theorem claimC3_absent_mark_caps_count (g f : Word) (ch : Char) :
    (hasXMark g f ch = true →
      maxLetterCounts g f ch = some (ygCounts g f ch)) ∧
    (hasXMark g f ch = false → maxLetterCounts g f ch = none) := by
  constructor <;> intro h <;> rw [maxLetterCounts_eq] <;> simp [h]

/-- Witness for C3 at the concrete guess `"sassy"` / feedback `"YGXXG"`:
`'s'` has `X` marks and is capped at its `G`+`Y` tally (1); `'q'` has no
`X` mark and receives no cap. -/
theorem claimC3_absent_mark_caps_count_witness :
    maxLetterCounts ['s','a','s','s','y'] ['Y','G','X','X','G'] 's'
        = some (ygCounts ['s','a','s','s','y'] ['Y','G','X','X','G'] 's') ∧
    maxLetterCounts ['s','a','s','s','y'] ['Y','G','X','X','G'] 'q' = none :=
  ⟨(claimC3_absent_mark_caps_count ['s','a','s','s','y']
      ['Y','G','X','X','G'] 's').1 (by decide),
   (claimC3_absent_mark_caps_count ['s','a','s','s','y']
      ['Y','G','X','X','G'] 'q').2 (by decide)⟩

/-- C4: the filtered list is a subsequence of the input candidate list —
every word of the result occurs in the input, relative order is preserved
(stable filter), and the length never grows. -/
theorem claimC4_stable_monotonic_shrinkage (g f : Word) (ws : List Word) :
    List.Sublist (applyGuessToCandidates g f ws) ws ∧
    (applyGuessToCandidates g f ws).length ≤ ws.length :=
  ⟨List.filter_sublist ws, List.length_filter_le _ ws⟩

/-- C5: guess `"zzzzz"` with feedback `"XXXXX"` leaves a candidate list with
no `'z'`-containing word unchanged, and empties a candidate list in which
every word contains `'z'`; both are ordinary return values of the total
filtering function, not error states. -/
theorem claimC5_all_absent_empty_result (ws : List Word) :
    ((∀ w ∈ ws, w.contains 'z' = false) →
      applyGuessToCandidates ['z','z','z','z','z'] ['X','X','X','X','X'] ws
        = ws) ∧
    ((∀ w ∈ ws, w.contains 'z' = true) →
      applyGuessToCandidates ['z','z','z','z','z'] ['X','X','X','X','X'] ws
        = []) := by
  constructor
  · intro h
    unfold applyGuessToCandidates
    apply List.filter_eq_self.mpr
    intro w hw
    rw [passes_zzzzz, h w hw]
    rfl
  · intro h
    unfold applyGuessToCandidates
    apply List.filter_eq_nil_iff.mpr
    intro w hw
    rw [passes_zzzzz, h w hw]
    simp

/-- Witness for C5: a z-free dictionary passes through unchanged, an all-z
dictionary filters down to the empty list. -/
theorem claimC5_all_absent_empty_result_witness :
    applyGuessToCandidates ['z','z','z','z','z'] ['X','X','X','X','X']
        [['c','r','a','t','e'], ['s','l','a','t','e']]
      = [['c','r','a','t','e'], ['s','l','a','t','e']] ∧
    applyGuessToCandidates ['z','z','z','z','z'] ['X','X','X','X','X']
        [['f','u','z','z','y']] = [] :=
  ⟨(claimC5_all_absent_empty_result _).1 (by decide),
   (claimC5_all_absent_empty_result _).2 (by decide)⟩

/-- C6: guess `"sassy"` with feedback `"YGXXG"` derives
`minLetterCounts 's' = 1` and `maxLetterCounts 's' = 1`; every candidate
with three `'s'` letters is rejected, and every 5-letter candidate with
exactly one `'s'` not at position 0, `'a'` at position 1 and `'y'` at
position 4 is retained. -/
theorem claimC6_sassy_duplicate_scenario :
    minLetterCounts ['s','a','s','s','y'] ['Y','G','X','X','G'] 's'
      = some 1 ∧
    maxLetterCounts ['s','a','s','s','y'] ['Y','G','X','X','G'] 's'
      = some 1 ∧
    (∀ (w : Word) (ws : List Word), w.count 's' = 3 →
      w ∉ applyGuessToCandidates ['s','a','s','s','y'] ['Y','G','X','X','G']
        ws) ∧
    (∀ (w : Word) (ws : List Word), w ∈ ws → w.length = 5 →
      w.count 's' = 1 → w.getD 0 '?' ≠ 's' → w.getD 1 '?' = 'a' →
      w.getD 4 '?' = 'y' →
      w ∈ applyGuessToCandidates ['s','a','s','s','y'] ['Y','G','X','X','G']
        ws) := by
  refine ⟨by decide, by decide, ?_, ?_⟩
  · intro w ws h hw
    unfold applyGuessToCandidates at hw
    have := (List.mem_filter.mp hw).2
    rw [passes_sassy_reject w h] at this
    exact absurd this (by simp)
  · intro w ws hw h5 hs h0 h1 h4
    unfold applyGuessToCandidates
    exact List.mem_filter.mpr ⟨hw, passes_sassy_retain w h5 hs h0 h1 h4⟩

/-- Witness for C6: `"sssat"` (three `'s'`) is rejected, `"lasky"` (one
`'s'` at position 2, `'a'` at 1, `'y'` at 4) is retained. -/
theorem claimC6_sassy_duplicate_scenario_witness :
    (['s','s','s','a','t'] : Word) ∉
      applyGuessToCandidates ['s','a','s','s','y'] ['Y','G','X','X','G']
        [['s','s','s','a','t']] ∧
    (['l','a','s','k','y'] : Word) ∈
      applyGuessToCandidates ['s','a','s','s','y'] ['Y','G','X','X','G']
        [['l','a','s','k','y']] :=
  ⟨claimC6_sassy_duplicate_scenario.2.2.1 _ _ (by decide),
   claimC6_sassy_duplicate_scenario.2.2.2 _ _ (by decide) (by decide)
     (by decide) (by decide) (by decide) (by decide)⟩

/-- C9: one call of `applyGuessToCandidates` leaves the caller's input array
holding exactly the elements it held before in the same order, returns the
filtered list as a separate value, and is deterministic — two calls with
equal inputs return equal results.  (The embedding of
`Array.prototype.filter` is allocation-fresh by construction; see
`applyGuessToCandidatesCall`.) -/
theorem claimC9_pure_inputs_intact (g f : Word) (ws : List Word) :
    (applyGuessToCandidatesCall g f ws).2 = ws ∧
    (applyGuessToCandidatesCall g f ws).1 = applyGuessToCandidates g f ws ∧
    ∀ g' f' ws', g' = g → f' = f → ws' = ws →
      applyGuessToCandidates g' f' ws' = applyGuessToCandidates g f ws := by
  refine ⟨rfl, rfl, ?_⟩
  intro g' f' ws' hg hf hw
  rw [hg, hf, hw]

/-- Witness for C9 at a concrete call. -/
theorem claimC9_pure_inputs_intact_witness :
    (applyGuessToCandidatesCall ['c','r','a','t','e'] ['G','G','G','G','G']
        [['c','r','a','t','e']]).2 = [['c','r','a','t','e']] ∧
    applyGuessToCandidates ['c','r','a','t','e'] ['G','G','G','G','G']
        [['c','r','a','t','e']]
      = applyGuessToCandidates ['c','r','a','t','e'] ['G','G','G','G','G']
        [['c','r','a','t','e']] :=
  ⟨(claimC9_pure_inputs_intact ['c','r','a','t','e'] ['G','G','G','G','G']
      [['c','r','a','t','e']]).1,
   (claimC9_pure_inputs_intact ['c','r','a','t','e'] ['G','G','G','G','G']
      [['c','r','a','t','e']]).2.2 _ _ _ rfl rfl rfl⟩

/-- C10: re-applying the same guess/feedback pair to its own output changes
nothing — a single filtering pass is idempotent. -/
theorem claimC10_filter_idempotent (g f : Word) (ws : List Word) :
    applyGuessToCandidates g f (applyGuessToCandidates g f ws)
      = applyGuessToCandidates g f ws := by
  unfold applyGuessToCandidates
  rw [List.filter_filter]
  simp

end WordleSolver

namespace WordleSolver

/-- `validateInputs` returns `none` exactly when both regular-expression
tests succeed (Boolean form). -/
lemma validateInputs_eq_none_iff_bool (g f : Word) :
    validateInputs g f = none ↔
      ((g.length == 5 && g.all fun c => ('a' ≤ c : Bool) && (c ≤ 'z' : Bool))
          = true ∧
       (f.length == 5 && f.all fun c =>
          c == 'G' || c == 'Y' || c == 'X' || c == 'g' || c == 'y' || c == 'x')
          = true) := by
  unfold validateInputs
  split_ifs with h1 h2
  · simp only [Bool.not_eq_true'] at h1
    simp [h1]
  · simp only [Bool.not_eq_true'] at h2
    simp [h2]
  · simp only [Bool.not_eq_true'] at h1 h2
    replace h1 := eq_true_of_ne_false h1
    replace h2 := eq_true_of_ne_false h2
    simp [h1, h2]

/-- `validateInputs` returns `none` exactly when the guess is five
lower-case letters and the feedback is five characters over
`G/Y/X/g/y/x`. -/
lemma validateInputs_none_iff (g f : Word) :
    validateInputs g f = none ↔
      (g.length = 5 ∧ ∀ c ∈ g, 'a' ≤ c ∧ c ≤ 'z') ∧
      (f.length = 5 ∧ ∀ c ∈ f,
        c = 'G' ∨ c = 'Y' ∨ c = 'X' ∨ c = 'g' ∨ c = 'y' ∨ c = 'x') := by
  rw [validateInputs_eq_none_iff_bool]
  simp [List.all_eq_true, or_assoc]

/-- C7 counterexample: `applyGuessToCandidates` of src/script.js compares
feedback characters with `===` against the upper-case symbols only, so a
lower-case feedback string derives no constraints at all: `"ggggg"` retains
a word that its upper-cased form `"GGGGG"` rejects.  This refutes
case-insensitivity of the src/script.js filtering function itself. -/
theorem claimC7_counterexample :
    applyGuessToCandidates ['a','b','c','d','e'] ['g','g','g','g','g']
        [['v','w','x','y','z']] = [['v','w','x','y','z']] ∧
    applyGuessToCandidates ['a','b','c','d','e']
        (['g','g','g','g','g'].map Char.toUpper)
        [['v','w','x','y','z']] = [] ∧
    applyGuessToCandidates ['a','b','c','d','e'] ['g','g','g','g','g']
        [['v','w','x','y','z']] ≠
      applyGuessToCandidates ['a','b','c','d','e']
        (['g','g','g','g','g'].map Char.toUpper)
        [['v','w','x','y','z']] :=
  ⟨by decide, by decide, by decide⟩

/-- C7 amended: case-insensitivity of the feedback encoding holds for the
src/unnamed/part_001 variant of `applyGuessToCandidates`, which normalises
the feedback to upper case before deriving constraints, and end-to-end in
src/script.js because the submit handler upper cases the feedback before
calling the filter; the src/script.js filtering function alone is
case-sensitive (`claimC7_counterexample`). -/
theorem claimC7_case_insensitive_after_normalisation (g fdbk : Word)
    (ws : List Word) (st : AppState) (rg : Word)
    (hf : ∀ c ∈ fdbk,
      c = 'G' ∨ c = 'Y' ∨ c = 'X' ∨ c = 'g' ∨ c = 'y' ∨ c = 'x') :
    Part001.applyGuessToCandidates g fdbk ws
      = Part001.applyGuessToCandidates g (fdbk.map Char.toUpper) ws ∧
    submitClick st rg fdbk = submitClick st rg (fdbk.map Char.toUpper) := by
  have hmap : (fdbk.map Char.toUpper).map Char.toUpper
      = fdbk.map Char.toUpper := by
    rw [List.map_map]
    apply List.map_congr_left
    intro c hc
    rcases hf c hc with h | h | h | h | h | h <;> subst h <;> rfl
  constructor
  · unfold Part001.applyGuessToCandidates
    rw [hmap]
  · unfold submitClick
    rw [hmap]

/-- Witness for C7 amended, at a mixed-case feedback string. -/
theorem claimC7_case_insensitive_after_normalisation_witness :
    Part001.applyGuessToCandidates ['c','r','a','t','e'] ['g','Y','x','G','y']
        [['c','r','a','t','e']]
      = Part001.applyGuessToCandidates ['c','r','a','t','e']
        (['g','Y','x','G','y'].map Char.toUpper) [['c','r','a','t','e']] ∧
    submitClick ⟨[], [], []⟩ ['c','r','a','t','e'] ['g','Y','x','G','y']
      = submitClick ⟨[], [], []⟩ ['c','r','a','t','e']
        (['g','Y','x','G','y'].map Char.toUpper) :=
  claimC7_case_insensitive_after_normalisation ['c','r','a','t','e']
    ['g','Y','x','G','y'] [['c','r','a','t','e']] ⟨[], [], []⟩
    ['c','r','a','t','e'] (by decide)

/-- C8: `validateInputs` returns a non-null error exactly when the guess is
not five lower-case letters or the feedback is not five characters over
`G/Y/X/g/y/x` (equivalently, `none` exactly when both are well-formed); and
whenever validation of the normalised inputs fails, the submit handler
surfaces the descriptive error and returns with the application state — in
particular the candidate list — untouched, deriving and applying no
constraint set. -/
theorem claimC8_fail_fast_on_malformed_input (g f : Word) :
    (validateInputs g f = none ↔
      (g.length = 5 ∧ ∀ c ∈ g, 'a' ≤ c ∧ c ≤ 'z') ∧
      (f.length = 5 ∧ ∀ c ∈ f,
        c = 'G' ∨ c = 'Y' ∨ c = 'X' ∨ c = 'g' ∨ c = 'y' ∨ c = 'x')) ∧
    ∀ (st : AppState) (rg rf : Word) (err : String),
      validateInputs (rg.map Char.toLower) (rf.map Char.toUpper)
          = some err →
      submitClick st rg rf = (st, some ("❌ " ++ err)) := by
  refine ⟨validateInputs_none_iff g f, ?_⟩
  intro st rg rf err h
  simp [submitClick, h]

/-- Witness for C8: a three-letter guess is rejected with the descriptive
guess-format error and the state is unchanged. -/
theorem claimC8_fail_fast_on_malformed_input_witness :
    submitClick ⟨[['c','r','a','t','e']], [['c','r','a','t','e']], []⟩
        ['a','b','c'] ['G','G','G','G','G']
      = (⟨[['c','r','a','t','e']], [['c','r','a','t','e']], []⟩,
         some ("❌ " ++ "Guess must be 5 letters (A–Z).")) :=
  (claimC8_fail_fast_on_malformed_input ['a','b','c'] ['G','G','G','G','G']).2
    ⟨[['c','r','a','t','e']], [['c','r','a','t','e']], []⟩
    ['a','b','c'] ['G','G','G','G','G']
    "Guess must be 5 letters (A–Z)." (by decide)

end WordleSolver

namespace WordleSolver

/-! ## Lemmas about the canonical scoring function -/

lemma scoreAux_cons_G {gc tc : Char} (h : gc = tc)
    (rest : List (Char × Char)) (avail : Char → Nat) :
    scoreAux ((gc, tc) :: rest) avail = 'G' :: scoreAux rest avail := by
  simp [scoreAux, h]

lemma scoreAux_cons_Y {gc tc : Char} (h : gc ≠ tc) {avail : Char → Nat}
    (h2 : 0 < avail gc) (rest : List (Char × Char)) :
    scoreAux ((gc, tc) :: rest) avail
      = 'Y' :: scoreAux rest (decrAt avail gc) := by
  simp [scoreAux, h, h2]

lemma scoreAux_cons_X {gc tc : Char} (h : gc ≠ tc) {avail : Char → Nat}
    (h2 : ¬ 0 < avail gc) (rest : List (Char × Char)) :
    scoreAux ((gc, tc) :: rest) avail = 'X' :: scoreAux rest avail := by
  simp [scoreAux, h, h2]

lemma availAfter_cons_G {gc tc : Char} (h : gc = tc)
    (rest : List (Char × Char)) (avail : Char → Nat) :
    availAfter ((gc, tc) :: rest) avail = availAfter rest avail := by
  simp [availAfter, h]

lemma availAfter_cons_Y {gc tc : Char} (h : gc ≠ tc) {avail : Char → Nat}
    (h2 : 0 < avail gc) (rest : List (Char × Char)) :
    availAfter ((gc, tc) :: rest) avail
      = availAfter rest (decrAt avail gc) := by
  simp [availAfter, h, h2]

lemma availAfter_cons_X {gc tc : Char} (h : gc ≠ tc) {avail : Char → Nat}
    (h2 : ¬ 0 < avail gc) (rest : List (Char × Char)) :
    availAfter ((gc, tc) :: rest) avail = availAfter rest avail := by
  simp [availAfter, h, h2]

lemma scoreAux_length (pairs : List (Char × Char)) :
    ∀ avail : Char → Nat, (scoreAux pairs avail).length = pairs.length := by
  induction pairs with
  | nil => intro avail; rfl
  | cons p rest ih =>
    intro avail
    obtain ⟨gc, tc⟩ := p
    by_cases h : gc = tc
    · rw [scoreAux_cons_G h]; simp [ih]
    · by_cases h2 : 0 < avail gc
      · rw [scoreAux_cons_Y h h2]; simp [ih]
      · rw [scoreAux_cons_X h h2]; simp [ih]

lemma decrAt_le (avail : Char → Nat) (c ch : Char) :
    decrAt avail c ch ≤ avail ch := by
  unfold decrAt
  by_cases h : ch = c
  · subst h
    simp
  · simp [h]

lemma availAfter_le (pairs : List (Char × Char)) :
    ∀ (avail : Char → Nat) (ch : Char),
      availAfter pairs avail ch ≤ avail ch := by
  induction pairs with
  | nil => intro avail ch; exact le_refl _
  | cons p rest ih =>
    intro avail ch
    obtain ⟨gc, tc⟩ := p
    by_cases h : gc = tc
    · rw [availAfter_cons_G h]; exact ih avail ch
    · by_cases h2 : 0 < avail gc
      · rw [availAfter_cons_Y h h2]
        exact le_trans (ih _ ch) (decrAt_le avail gc ch)
      · rw [availAfter_cons_X h h2]; exact ih avail ch

end WordleSolver

namespace WordleSolver

/-- A `G` mark at position `i` means the guess and target characters of that
position coincide. -/
lemma scoreAux_getD_G (pairs : List (Char × Char)) :
    ∀ (avail : Char → Nat) (i : Nat), i < pairs.length →
      (scoreAux pairs avail).getD i '?' = 'G' →
      (pairs.getD i ('?', '?')).1 = (pairs.getD i ('?', '?')).2 := by
  induction pairs with
  | nil => intro avail i hi; simp at hi
  | cons p rest ih =>
    intro avail i hi hG
    obtain ⟨gc, tc⟩ := p
    by_cases h : gc = tc
    · rw [scoreAux_cons_G h] at hG
      cases i with
      | zero => simpa using h
      | succ n =>
        rw [List.getD_cons_succ] at hG ⊢
        exact ih avail n (by simpa using hi) hG
    · by_cases h2 : 0 < avail gc
      · rw [scoreAux_cons_Y h h2] at hG
        cases i with
        | zero =>
          rw [List.getD_cons_zero] at hG
          exact absurd hG (by decide)
        | succ n =>
          rw [List.getD_cons_succ] at hG ⊢
          exact ih _ n (by simpa using hi) hG
      · rw [scoreAux_cons_X h h2] at hG
        cases i with
        | zero =>
          rw [List.getD_cons_zero] at hG
          exact absurd hG (by decide)
        | succ n =>
          rw [List.getD_cons_succ] at hG ⊢
          exact ih avail n (by simpa using hi) hG

/-- A `Y` mark at position `i` means the characters differ there and the
guess letter still had positive availability when position `i` was
processed — in particular positive initial availability. -/
lemma scoreAux_getD_Y (pairs : List (Char × Char)) :
    ∀ (avail : Char → Nat) (i : Nat), i < pairs.length →
      (scoreAux pairs avail).getD i '?' = 'Y' →
      (pairs.getD i ('?', '?')).1 ≠ (pairs.getD i ('?', '?')).2 ∧
        0 < avail ((pairs.getD i ('?', '?')).1) := by
  induction pairs with
  | nil => intro avail i hi; simp at hi
  | cons p rest ih =>
    intro avail i hi hY
    obtain ⟨gc, tc⟩ := p
    by_cases h : gc = tc
    · rw [scoreAux_cons_G h] at hY
      cases i with
      | zero =>
        rw [List.getD_cons_zero] at hY
        exact absurd hY (by decide)
      | succ n =>
        rw [List.getD_cons_succ] at hY ⊢
        exact ih avail n (by simpa using hi) hY
    · by_cases h2 : 0 < avail gc
      · rw [scoreAux_cons_Y h h2] at hY
        cases i with
        | zero =>
          rw [List.getD_cons_zero]
          exact ⟨h, h2⟩
        | succ n =>
          rw [List.getD_cons_succ] at hY ⊢
          obtain ⟨hne, hpos⟩ := ih _ n (by simpa using hi) hY
          exact ⟨hne, lt_of_lt_of_le hpos (decrAt_le avail gc _)⟩
      · rw [scoreAux_cons_X h h2] at hY
        cases i with
        | zero =>
          rw [List.getD_cons_zero] at hY
          exact absurd hY (by decide)
        | succ n =>
          rw [List.getD_cons_succ] at hY ⊢
          exact ih avail n (by simpa using hi) hY

/-- An `X` mark at position `i` means the availability of the guess letter
of that position is exhausted by the end of the scoring pass. -/
lemma scoreAux_getD_X (pairs : List (Char × Char)) :
    ∀ (avail : Char → Nat) (i : Nat), i < pairs.length →
      (scoreAux pairs avail).getD i '?' = 'X' →
      availAfter pairs avail ((pairs.getD i ('?', '?')).1) = 0 := by
  induction pairs with
  | nil => intro avail i hi; simp at hi
  | cons p rest ih =>
    intro avail i hi hX
    obtain ⟨gc, tc⟩ := p
    by_cases h : gc = tc
    · rw [scoreAux_cons_G h] at hX
      rw [availAfter_cons_G h]
      cases i with
      | zero =>
        rw [List.getD_cons_zero] at hX
        exact absurd hX (by decide)
      | succ n =>
        rw [List.getD_cons_succ] at hX ⊢
        exact ih avail n (by simpa using hi) hX
    · by_cases h2 : 0 < avail gc
      · rw [scoreAux_cons_Y h h2] at hX
        rw [availAfter_cons_Y h h2]
        cases i with
        | zero =>
          rw [List.getD_cons_zero] at hX
          exact absurd hX (by decide)
        | succ n =>
          rw [List.getD_cons_succ] at hX ⊢
          exact ih _ n (by simpa using hi) hX
      · rw [scoreAux_cons_X h h2] at hX
        rw [availAfter_cons_X h h2]
        cases i with
        | zero =>
          rw [List.getD_cons_zero]
          show availAfter rest avail gc = 0
          have hz : avail gc = 0 := Nat.eq_zero_of_not_pos h2
          have := availAfter_le rest avail gc
          omega
        | succ n =>
          rw [List.getD_cons_succ] at hX ⊢
          exact ih avail n (by simpa using hi) hX

/-- Indexing a zip is indexing the components (within bounds). -/
lemma zip_getD (g : List Char) :
    ∀ (w : List Char) (i : Nat) (d₁ d₂ : Char), i < g.length →
      i < w.length →
      (g.zip w).getD i (d₁, d₂) = (g.getD i d₁, w.getD i d₂) := by
  induction g with
  | nil => intro w i d1 d2 h1 h2; simp at h1
  | cons a g' ih =>
    intro w i d1 d2 h1 h2
    cases w with
    | nil => simp at h2
    | cons b w' =>
      cases i with
      | zero => rw [List.zip_cons_cons, List.getD_cons_zero,
          List.getD_cons_zero, List.getD_cons_zero]
      | succ n =>
        rw [List.zip_cons_cons, List.getD_cons_succ, List.getD_cons_succ,
          List.getD_cons_succ]
        exact ih w' n d1 d2 (by simpa using h1) (by simpa using h2)

end WordleSolver

namespace WordleSolver

/-- Accounting identity of the scoring pass: for each letter `ch`, the
number of `G`/`Y` marks carrying `ch` equals the number of green positions
with `ch` plus the availability of `ch` consumed by `Y` marks. -/
lemma countYG_eq (pairs : List (Char × Char)) :
    ∀ (avail : Char → Nat) (ch : Char),
      (pairs.zip (scoreAux pairs avail)).countP
          (fun q => (q.2 == 'G' || q.2 == 'Y') && q.1.1 == ch)
        = greensFor pairs ch + (avail ch - availAfter pairs avail ch) := by
  induction pairs with
  | nil =>
    intro avail ch
    simp [scoreAux, greensFor, availAfter]
  | cons p rest ih =>
    intro avail ch
    obtain ⟨gc, tc⟩ := p
    by_cases h : gc = tc
    · rw [scoreAux_cons_G h, availAfter_cons_G h, List.zip_cons_cons,
        List.countP_cons, ih avail ch]
      simp only [greensFor, List.countP_cons]
      have hafter := availAfter_le rest avail ch
      by_cases hch : gc = ch <;> simp [h, hch] <;> omega
    · by_cases h2 : 0 < avail gc
      · rw [scoreAux_cons_Y h h2, availAfter_cons_Y h h2, List.zip_cons_cons,
          List.countP_cons, ih (decrAt avail gc) ch]
        simp only [greensFor, List.countP_cons]
        by_cases hch : gc = ch
        · subst hch
          have hle : availAfter rest (decrAt avail gc) gc
              ≤ decrAt avail gc gc := availAfter_le rest (decrAt avail gc) gc
          have hd : decrAt avail gc gc = avail gc - 1 := by simp [decrAt]
          rw [hd] at hle
          simp [h, hd]
          omega
        · have hd : decrAt avail gc ch = avail ch := by
            have : ch ≠ gc := fun hh => hch hh.symm
            simp [decrAt, this]
          simp [h, hch, hd]
      · rw [scoreAux_cons_X h h2, availAfter_cons_X h h2, List.zip_cons_cons,
          List.countP_cons, ih avail ch]
        simp [greensFor, List.countP_cons, h]

end WordleSolver

namespace WordleSolver

/-- Counting a property of guess and mark characters over the
`(pair, mark)` zip equals counting it over the `(guess, mark)` zip, when
guess and target have equal length. -/
lemma countP_zip3 (P : Char → Char → Bool) (g : List Char) :
    ∀ (w f : List Char), g.length = w.length →
      ((g.zip w).zip f).countP (fun q => P q.1.1 q.2)
        = (g.zip f).countP (fun p => P p.1 p.2) := by
  induction g with
  | nil => intro w f h; simp
  | cons a g' ih =>
    intro w f h
    cases w with
    | nil => simp at h
    | cons b w' =>
      cases f with
      | nil => simp
      | cons c f' =>
        rw [List.zip_cons_cons, List.zip_cons_cons, List.zip_cons_cons,
          List.countP_cons, List.countP_cons, ih w' f' (by simpa using h)]

/-- Counting a property of the second components over a zip is bounded by
counting it over the second list. -/
lemma countP_zip_snd_le (p : Char → Bool) (g : List Char) :
    ∀ w : List Char, (g.zip w).countP (fun q => p q.2) ≤ w.countP p := by
  induction g with
  | nil => intro w; simp
  | cons a g' ih =>
    intro w
    cases w with
    | nil => simp
    | cons b w' =>
      rw [List.zip_cons_cons, List.countP_cons, List.countP_cons]
      have := ih w'
      by_cases hb : p b = true <;> simp [hb] <;> omega

/-- The green positions for a letter never exceed the letter's occurrences
in the target. -/
lemma greensFor_le_count (g w : Word) (ch : Char) :
    greensFor (g.zip w) ch ≤ w.count ch := by
  unfold greensFor
  calc (g.zip w).countP (fun p => p.1 == p.2 && p.1 == ch)
      ≤ (g.zip w).countP (fun p => p.2 == ch) := by
        apply List.countP_mono_left
        intro x hx h
        obtain ⟨h1, h2⟩ := (Bool.and_eq_true _ _).mp h
        have e1 : x.1 = x.2 := eq_of_beq h1
        have e2 : x.1 = ch := eq_of_beq h2
        exact beq_iff_eq.mpr (e1 ▸ e2)
    _ ≤ w.countP (fun c => c == ch) :=
        countP_zip_snd_le (fun c => c == ch) g w
    _ = w.count ch := (List.count_eq_countP ch w).symm

/-- The initial availability never exceeds the target count. -/
lemma initAvail_le_count (g w : Word) (ch : Char) :
    initAvail g w ch ≤ w.count ch :=
  Nat.sub_le _ _

/-- Greens plus initial availability reassemble the target count. -/
lemma greensFor_add_initAvail (g w : Word) (ch : Char) :
    greensFor (g.zip w) ch + initAvail g w ch = w.count ch := by
  unfold initAvail
  have := greensFor_le_count g w ch
  omega

/-- `ygCounts` of a guess against its own score, expressed through the
scoring pass's accounting identity. -/
lemma ygCounts_score (g w : Word) (h : g.length = w.length) (ch : Char) :
    ygCounts g (score g w) ch
      = greensFor (g.zip w) ch
        + (initAvail g w ch
            - availAfter (g.zip w) (initAvail g w) ch) := by
  unfold ygCounts score
  rw [← countP_zip3 (fun a c => (c == 'G' || c == 'Y') && a == ch) g w
      (scoreAux (g.zip w) (initAvail g w)) h]
  exact countYG_eq (g.zip w) (initAvail g w) ch

/-- Minimum-count soundness: the `G`+`Y` tally of a letter in the true
score never exceeds the letter's occurrences in the target. -/
lemma ygCounts_score_le_count (g w : Word) (h : g.length = w.length)
    (ch : Char) : ygCounts g (score g w) ch ≤ w.count ch := by
  rw [ygCounts_score g w h ch]
  have h1 := greensFor_add_initAvail g w ch
  have h2 := availAfter_le (g.zip w) (initAvail g w) ch
  omega

/-- Maximum-count soundness: once the availability of `ch` is exhausted,
the `G`+`Y` tally of `ch` equals the target count exactly. -/
lemma ygCounts_score_eq_count (g w : Word) (h : g.length = w.length)
    (ch : Char) (hz : availAfter (g.zip w) (initAvail g w) ch = 0) :
    ygCounts g (score g w) ch = w.count ch := by
  rw [ygCounts_score g w h ch, hz]
  have h1 := greensFor_add_initAvail g w ch
  omega

end WordleSolver

namespace WordleSolver

/-- Soundness of the derived constraints with respect to canonical scoring:
a (5-letter) target always satisfies every constraint derived from any
(5-letter) guess together with the feedback that this guess would truly
receive against that target. -/

lemma passes_of_score (g w : Word) (hg : g.length = 5) (hw : w.length = 5) :
    candidatePasses g (score g w) w = true := by
  have hlen : g.length = w.length := by omega
  have hpl : (g.zip w).length = 5 := by
    rw [List.length_zip, hg, hw]
    simp
  have hsc : score g w = scoreAux (g.zip w) (initAvail g w) := rfl
  have hfl : (score g w).length = 5 := by
    rw [hsc, scoreAux_length, hpl]
  have hzget : ∀ i, i < 5 →
      (g.zip w).getD i ('?', '?') = (g.getD i '?', w.getD i '?') := by
    intro i hi
    exact zip_getD g w i '?' '?' (by omega) (by omega)
  have hGfact : ∀ i, i < 5 → (score g w).getD i '?' = 'G' →
      g.getD i '?' = w.getD i '?' := by
    intro i hi hG
    have := scoreAux_getD_G (g.zip w) (initAvail g w) i (by omega)
      (by rw [← hsc]; exact hG)
    rwa [hzget i hi] at this
  have hYfact : ∀ i, i < 5 → (score g w).getD i '?' = 'Y' →
      g.getD i '?' ≠ w.getD i '?' ∧ 0 < initAvail g w (g.getD i '?') := by
    intro i hi hY
    have := scoreAux_getD_Y (g.zip w) (initAvail g w) i (by omega)
      (by rw [← hsc]; exact hY)
    rwa [hzget i hi] at this
  have hcontains : ∀ ch : Char, 0 < initAvail g w ch →
      w.contains ch = true := by
    intro ch hpos
    have h1 : 0 < w.count ch := lt_of_lt_of_le hpos (initAvail_le_count g w ch)
    exact List.elem_iff.mpr (List.count_pos_iff.mp h1)
  unfold candidatePasses
  simp only [Bool.and_eq_true, List.all_eq_true, List.mem_range]
  refine ⟨⟨⟨⟨?_, ?_⟩, ?_⟩, ?_⟩, ?_⟩
  · -- 1) greens
    intro i hi
    unfold requiredPositions
    by_cases hG : (score g w).getD i '?' = 'G'
    · rw [if_pos (by simpa using hG)]
      exact beq_iff_eq.mpr ((hGfact i hi hG).symm)
    · rw [if_neg (by simpa using hG)]
  · -- 2) yellows: present but not at that position
    intro i hi
    by_cases hY : (score g w).getD i '?' = 'Y'
    · rw [if_pos (by simpa using hY)]
      obtain ⟨hne, hpos⟩ := hYfact i hi hY
      refine (Bool.and_eq_true _ _).mpr ⟨?_, hcontains _ hpos⟩
      rw [Bool.not_eq_true']
      exact beq_eq_false_iff_ne.mpr (fun hh => hne hh.symm)
    · rw [if_neg (by simpa using hY)]
  · -- 3a) minimum counts
    intro i hi
    unfold minLetterCounts
    by_cases h0 : ygCounts g (score g w) (g.getD i '?') = 0
    · rw [if_pos h0]
    · rw [if_neg h0]
      exact decide_eq_true (ygCounts_score_le_count g w hlen _)
  · -- 3b) maximum counts
    intro i hi
    rw [maxLetterCounts_eq]
    by_cases hX : hasXMark g (score g w) (g.getD i '?') = true
    · rw [if_pos hX]
      obtain ⟨p, hp, hpx⟩ := List.any_eq_true.mp hX
      obtain ⟨j, hj, hjp⟩ := List.mem_iff_getElem.mp hp
      have hjl : j < 5 := by
        have h' := hj
        rw [List.length_zip, hg, hfl] at h'
        omega
      have hpd : (g.zip (score g w)).getD j ('?', '?') = p := by
        rw [List.getD_eq_getElem _ _ hj, hjp]
      have hpd2 : (g.zip (score g w)).getD j ('?', '?')
          = (g.getD j '?', (score g w).getD j '?') :=
        zip_getD g (score g w) j '?' '?' (by omega) (by omega)
      obtain ⟨hx2, hx1⟩ := (Bool.and_eq_true _ _).mp hpx
      have hfX : (score g w).getD j '?' = 'X' := by
        have hpe : p.2 = 'X' := eq_of_beq hx2
        rw [← hpd, hpd2] at hpe
        exact hpe
      have hgj : g.getD j '?' = g.getD i '?' := by
        have hpe : p.1 = g.getD i '?' := eq_of_beq hx1
        rw [← hpd, hpd2] at hpe
        exact hpe
      have hzero := scoreAux_getD_X (g.zip w) (initAvail g w) j (by omega)
        (by rw [← hsc]; exact hfX)
      rw [hzget j hjl, hgj] at hzero
      have heq := ygCounts_score_eq_count g w hlen (g.getD i '?') hzero
      exact decide_eq_true (le_of_eq heq.symm)
    · rw [if_neg hX]
  · -- 4) yellow positional forbiddance
    intro i hi
    unfold forbiddenPositions
    by_cases hY : (score g w).getD i '?' = 'Y'
    · rw [if_pos (by simpa using hY)]
      obtain ⟨hne, -⟩ := hYfact i hi hY
      rw [Bool.not_eq_true']
      exact beq_eq_false_iff_ne.mpr (fun hh => hne hh.symm)
    · rw [if_neg (by simpa using hY)]

/-- C1 counterexample: the filter is NOT exactly the set of
feedback-consistent words.  For guess `"aabcd"` and feedback `"YXGGG"`, the
candidate `"xabcd"` is retained (it satisfies every derived constraint:
greens at 2,3,4, the yellow `'a'` appears away from position 0, and its
letter counts respect min/max), yet scoring `"aabcd"` against the secret
`"xabcd"` yields `"XGGGG"` — the `'a'` at position 1 would have been
Correct, not Absent — so the retained word would not reproduce the
feedback, and the claimed set equality fails. -/
theorem claimC1_counterexample :
    applyGuessToCandidates ['a','a','b','c','d'] ['Y','X','G','G','G']
        [['x','a','b','c','d']] = [['x','a','b','c','d']] ∧
    score ['a','a','b','c','d'] ['x','a','b','c','d']
      = ['X','G','G','G','G'] ∧
    List.filter
        (fun w => score ['a','a','b','c','d'] w == ['Y','X','G','G','G'])
        [['x','a','b','c','d']] = [] :=
  ⟨by decide, by decide, by decide⟩

/-- C1 amended: `applyGuessToCandidates` retains every candidate that would
have generated the identical feedback had it been the secret target (the
"if" direction of the claimed equivalence); the converse fails — a retained
candidate need not reproduce the feedback (`claimC1_counterexample`). -/
theorem claimC1_feedback_consistent_words_retained (g f : Word)
    (ws : List Word) (w : Word) (hg : g.length = 5) (hw : w.length = 5)
    (hmem : w ∈ ws) (hf : score g w = f) :
    w ∈ applyGuessToCandidates g f ws := by
  subst hf
  exact List.mem_filter.mpr ⟨hmem, passes_of_score g w hg hw⟩

/-- Witness for C1 amended at a concrete guess/target pair. -/
theorem claimC1_feedback_consistent_words_retained_witness :
    (['c','r','a','t','e'] : Word) ∈
      applyGuessToCandidates ['s','l','a','t','e']
        (score ['s','l','a','t','e'] ['c','r','a','t','e'])
        [['c','r','a','t','e']] :=
  claimC1_feedback_consistent_words_retained ['s','l','a','t','e']
    (score ['s','l','a','t','e'] ['c','r','a','t','e'])
    [['c','r','a','t','e']] ['c','r','a','t','e']
    (by decide) (by decide) (by decide) rfl

/-- C2: round-trip self-consistency — for any 5-letter guess `c` and
5-letter target `w`, filtering the singleton list `[w]` with the feedback
`score c w` that `c` truly receives against `w` retains `w`. -/
theorem claimC2_target_survives_roundtrip (c w : Word) (hc : c.length = 5)
    (hw : w.length = 5) :
    applyGuessToCandidates c (score c w) [w] = [w] := by
  unfold applyGuessToCandidates
  simp [passes_of_score c w hc hw]

/-- Witness for C2 at a concrete guess/target pair with repeated letters. -/
theorem claimC2_target_survives_roundtrip_witness :
    applyGuessToCandidates ['s','a','s','s','y']
        (score ['s','a','s','s','y'] ['g','l','a','s','s'])
        [['g','l','a','s','s']] = [['g','l','a','s','s']] :=
  claimC2_target_survives_roundtrip ['s','a','s','s','y']
    ['g','l','a','s','s'] (by decide) (by decide)

end WordleSolver
